import Mathlib

/-!
Verification of the Multi-Paxos consensus core described by the
hydro-ide sample fixture (src/test-fixtures/sample-hydro-project/src/paxos.rs)
and its accompanying specification.

The fixture declares the data shapes (Ballot, LogValue, P2a, PaxosConfig,
CorePaxos, the PaxosPayload bound); the protocol behaviour (acceptor rules,
quorum commits, construction-time validation) is modelled from the spec.
Machine integers are embedded as Nat; u32 overflow is made explicit with
modulus 4294967296 where it matters.
-/

namespace HydroPaxos

/-- Role tag for proposers (source: `pub struct Proposer`). -/
structure Proposer where
deriving DecidableEq

/-- Role tag for acceptors (source: `pub struct Acceptor`). -/
structure Acceptor where
deriving DecidableEq

/-- Cluster-member identifier tagged with a phantom role parameter,
modelling hydro_lang MemberId: a raw numeric id plus a role marker. -/
structure MemberId (Role : Type) where
  raw_id : Nat

instance {Role : Type} : DecidableEq (MemberId Role) := by
  intro m1 m2
  cases m1 with
  | mk r1 =>
    cases m2 with
    | mk r2 =>
      by_cases h : r1 = r2
      · exact isTrue (by rw [h])
      · exact isFalse (by intro hh; cases hh; exact h rfl)

/-- Ballot as declared in the source: a round number `num` (u32 in Rust)
and the identity of the proposer that minted it. -/
structure Ballot where
  num : Nat
  proposer_id : MemberId Proposer
deriving DecidableEq

/-- Comparison on Nat mirroring the Ord instance of Rust u32:
less, greater, or equal. -/
def natCmp (a b : Nat) : Ordering :=
  if a < b then Ordering.lt else if b < a then Ordering.gt else Ordering.eq

/-- Embedding of `impl Ord for Ballot`: compare `num` first, then
`proposer_id.raw_id`, via `Ordering.then` (Rust `then_with`). -/
def Ballot.cmp (b1 b2 : Ballot) : Ordering :=
  (natCmp b1.num b2.num).then (natCmp b1.proposer_id.raw_id b2.proposer_id.raw_id)

/-- Embedding of `impl PartialOrd for Ballot`: the source returns
`Some(self.cmp(other))`. The Rust name is partial_cmp. -/
def Ballot.pcmp (b1 b2 : Ballot) : Option Ordering :=
  some (Ballot.cmp b1 b2)

/-- Strict order on ballots induced by `Ballot.cmp` (Rust `<`). -/
def ballotLt (b1 b2 : Ballot) : Prop :=
  Ballot.cmp b1 b2 = Ordering.lt

/-- Reflexive order on ballots induced by `Ballot.cmp` (Rust `<=`). -/
def ballotLE (b1 b2 : Ballot) : Prop :=
  ballotLt b1 b2 ∨ b1 = b2

instance (b1 b2 : Ballot) : Decidable (ballotLt b1 b2) := by
  unfold ballotLt; infer_instance

instance (b1 b2 : Ballot) : Decidable (ballotLE b1 b2) := by
  unfold ballotLE; infer_instance

/-- Embedding of the derived PartialEq on Ballot: field-wise equality
(the MemberId comparison reduces to its raw id, the role tag is phantom). -/
def Ballot.beq (b1 b2 : Ballot) : Bool :=
  (b1.num == b2.num) && (b1.proposer_id.raw_id == b2.proposer_id.raw_id)

/-- Model of the derived Hash on Ballot: a deterministic function of the
two fields fed to the hasher, `num` first then the raw proposer id. -/
def Ballot.hashVal (b : Ballot) : Nat :=
  b.num * 4294967296 + b.proposer_id.raw_id

/-- A ballot is well formed when its round number fits in u32,
as the source declares `num: u32`. -/
def WfBallot (b : Ballot) : Prop :=
  b.num < 4294967296

/-- Minting the next round number with u32 arithmetic: wraps modulo 2^32. -/
def nextRound (r : Nat) : Nat :=
  (r + 1) % 4294967296

instance (b : Ballot) : Decidable (WfBallot b) := by
  unfold WfBallot; infer_instance

/-- Per-slot log entry as declared in the source (`LogValue<P>`): the
ballot under which the entry was accepted and an optional value, `none`
denoting a hole. -/
structure LogValue (P : Type) where
  ballot : Ballot
  value : Option P
deriving DecidableEq

/-- Accept request ("P2a") as declared in the source: sender, ballot,
slot and optional value (a re-committed hole is `none`). -/
structure P2a (P S : Type) where
  sender : MemberId S
  ballot : Ballot
  slot : Nat
  value : Option P
deriving DecidableEq

/-- Fault-tolerance configuration as declared in the source
(`PaxosConfig`): maximum number of faulty nodes and the heartbeat timers. -/
structure PaxosConfig where
  f : Nat
  i_am_leader_send_timeout : Nat
  i_am_leader_check_timeout : Nat
  i_am_leader_check_timeout_delay_multiplier : Nat
deriving DecidableEq

/-- The composition root as declared in the source (`CorePaxos`): a
proposer cluster, an acceptor cluster and one configuration. Clusters are
abstracted by their sizes. -/
structure CorePaxos where
  numProposers : Nat
  numAcceptors : Nat
  paxos_config : PaxosConfig
deriving DecidableEq

/-- Configuration fault surfaced at construction time. -/
inductive PaxosConfigError where
  | membershipInconsistency (required : Nat) (actual : Nat)
deriving DecidableEq

/-- Modelled from the spec: the construction-time validation of CorePaxos
is absent from the fixture (which only declares the data shapes); the spec
requires that a cluster with fewer than 2f+1 acceptors is a
construction-time failure, and construction succeeds otherwise. -/
def mkCorePaxos (numProposers numAcceptors : Nat) (cfg : PaxosConfig) :
    Except PaxosConfigError CorePaxos :=
  if numAcceptors < 2 * cfg.f + 1 then
    Except.error (PaxosConfigError.membershipInconsistency (2 * cfg.f + 1) numAcceptors)
  else
    Except.ok ⟨numProposers, numAcceptors, cfg⟩

/-- State of one acceptor, per the spec: the highest ballot seen and the
slot-indexed log, embedded as an association list with overwrite-on-insert. -/
structure AcceptorState (P : Type) where
  max_ballot_seen : Option Ballot
  log : List (Nat × LogValue P)
deriving DecidableEq

/-- Overwrite-on-insert update of the slot log: the last accepted ballot
wins at a slot. -/
def logInsert {P : Type} (l : List (Nat × LogValue P)) (s : Nat) (e : LogValue P) :
    List (Nat × LogValue P) :=
  (s, e) :: l.filter (fun p => p.1 ≠ s)

/-- Messages an acceptor processes: a Phase 1 prepare carrying a ballot,
or a Phase 2 accept request. -/
inductive AcceptorMsg (P : Type) where
  | prepare (ballot : Ballot)
  | accept (req : P2a P Proposer)
deriving DecidableEq

/-- Replies an acceptor produces: promise with its whole log, reject with
the currently recorded maximal ballot, or ack. -/
inductive AcceptorReply (P : Type) where
  | promise (ballot : Ballot) (log : List (Nat × LogValue P))
  | reject (maxSeen : Ballot)
  | ack (ballot : Ballot) (slot : Nat)
deriving DecidableEq

/-- The ballot carried by an incoming acceptor message. -/
def AcceptorMsg.msgBallot {P : Type} : AcceptorMsg P → Ballot
  | AcceptorMsg.prepare b => b
  | AcceptorMsg.accept r => r.ballot

/-- Modelled from the spec: the acceptor message-handling rules are absent
from the fixture; per the spec, a prepare with ballot below
max_ballot_seen is rejected with the current maximum and no state change,
otherwise the maximum is raised and a promise carries the entire log; an
accept below the maximum is rejected unchanged, otherwise the maximum is
raised, the log entry at the slot is overwritten, and an ack is sent. -/
def handleMsg {P : Type} (st : AcceptorState P) (m : AcceptorMsg P) :
    AcceptorReply P × AcceptorState P :=
  match m with
  | AcceptorMsg.prepare b =>
    match st.max_ballot_seen with
    | some mb =>
      if Ballot.cmp b mb = Ordering.lt then
        (AcceptorReply.reject mb, st)
      else
        (AcceptorReply.promise b st.log, ⟨some b, st.log⟩)
    | none => (AcceptorReply.promise b st.log, ⟨some b, st.log⟩)
  | AcceptorMsg.accept r =>
    match st.max_ballot_seen with
    | some mb =>
      if Ballot.cmp r.ballot mb = Ordering.lt then
        (AcceptorReply.reject mb, st)
      else
        (AcceptorReply.ack r.ballot r.slot,
          ⟨some r.ballot, logInsert st.log r.slot ⟨r.ballot, r.value⟩⟩)
    | none =>
      (AcceptorReply.ack r.ballot r.slot,
        ⟨some r.ballot, logInsert st.log r.slot ⟨r.ballot, r.value⟩⟩)

/-- A token-stream encoder and decoder pair for a payload type, the
shallow embedding of the serde Serialize and DeserializeOwned capabilities. -/
structure Codec (P : Type) where
  enc : P → List Nat
  dec : List Nat → Option (P × List Nat)

/-- A codec round-trips when decoding an encoding returns the original
value and the unconsumed remainder of the stream. -/
def RoundTrips {P : Type} (c : Codec P) : Prop :=
  ∀ p rest, c.dec (c.enc p ++ rest) = some (p, rest)

/-- Field-wise encoder for MemberId (the role tag is phantom; the raw id
is the serialized content). -/
def encodeMemberId {R : Type} (m : MemberId R) : List Nat :=
  [m.raw_id]

/-- Decoder matching `encodeMemberId`. -/
def decodeMemberId {R : Type} : List Nat → Option (MemberId R × List Nat)
  | x :: rest => some (⟨x⟩, rest)
  | [] => none

/-- Field-wise encoder for Ballot, mirroring the derived Serialize:
`num` then `proposer_id`. -/
def Ballot.encode (b : Ballot) : List Nat :=
  b.num :: b.proposer_id.raw_id :: []

/-- Decoder matching `Ballot.encode`, mirroring the derived Deserialize. -/
def Ballot.decode : List Nat → Option (Ballot × List Nat)
  | n :: p :: rest => some (⟨n, ⟨p⟩⟩, rest)
  | _ => none

/-- Tagged encoder for Option, mirroring the serde data model: tag 0 for
none, tag 1 followed by the payload for some. -/
def encodeOption {P : Type} (c : Codec P) : Option P → List Nat
  | none => [0]
  | some p => 1 :: c.enc p

/-- Decoder matching `encodeOption`. -/
def decodeOption {P : Type} (c : Codec P) : List Nat → Option (Option P × List Nat)
  | 0 :: rest => some (none, rest)
  | 1 :: rest => (c.dec rest).map (fun pr => (some pr.1, pr.2))
  | _ => none

/-- Field-wise encoder for LogValue, mirroring the derived Serialize:
ballot then optional value. -/
def LogValue.encode {P : Type} (c : Codec P) (lv : LogValue P) : List Nat :=
  Ballot.encode lv.ballot ++ encodeOption c lv.value

/-- Decoder matching `LogValue.encode`. -/
def LogValue.decode {P : Type} (c : Codec P) (l : List Nat) :
    Option (LogValue P × List Nat) :=
  match Ballot.decode l with
  | none => none
  | some br =>
    match decodeOption c br.2 with
    | none => none
    | some vr => some (⟨br.1, vr.1⟩, vr.2)

/-- Field-wise encoder for P2a, mirroring the derived Serialize: sender,
ballot, slot, optional value. -/
def P2a.encode {P S : Type} (c : Codec P) (m : P2a P S) : List Nat :=
  encodeMemberId m.sender ++ Ballot.encode m.ballot ++ [m.slot] ++ encodeOption c m.value

/-- Decoder matching `P2a.encode`. -/
def P2a.decode {P S : Type} (c : Codec P) (l : List Nat) :
    Option (P2a P S × List Nat) :=
  match decodeMemberId (R := S) l with
  | none => none
  | some sr =>
    match Ballot.decode sr.2 with
    | none => none
    | some br =>
      match br.2 with
      | [] => none
      | slot :: r3 =>
        match decodeOption c r3 with
        | none => none
        | some vr => some (⟨sr.1, br.1, slot, vr.1⟩, vr.2)

/-- Capability: serde Serialize. -/
structure Serializable (P : Type) where
  ser : P → List Nat

/-- Capability: serde DeserializeOwned. -/
structure Deserializable (P : Type) where
  deser : List Nat → Option (P × List Nat)

/-- Capability: PartialEq together with Eq, a total boolean equality test. -/
structure EqComparable (P : Type) where
  eqb : P → P → Bool

/-- Capability: Clone, producing a copy of a value. -/
structure Clonable (P : Type) where
  clone : P → P

/-- Capability: Debug formatting. -/
structure Debuggable (P : Type) where
  fmt : P → String

/-- The PaxosPayload bound as declared in the source: a trait whose
supertraits are exactly Serialize, DeserializeOwned, PartialEq, Eq, Clone
and Debug, with a blanket implementation for every such type. -/
structure PaxosPayload (P : Type) where
  toSer : Serializable P
  toDeser : Deserializable P
  toEq : EqComparable P
  toClone : Clonable P
  toDebug : Debuggable P

/-- A concrete codec for Nat payloads, used to instantiate the generic
round-trip statements. -/
def natCodec : Codec Nat where
  enc := fun n => [n]
  dec := fun l =>
    match l with
    | x :: rest => some (x, rest)
    | [] => none

/-! Protocol model, from the spec: acceptors indexed by an arbitrary
member type `A`, decision values of type `V`, ballots as above. The
state records, per acceptor, the highest ballot seen and the slot log,
plus the history of promises, votes, proposals and commits that the
message exchange produces. -/

/-- Global protocol state. `maxBal` and `log` are the mutable acceptor
state of the spec; `onb` (promises sent), `voted` (accepted slot values),
`proposal` (values a leader sent in Phase 2) and `decided` (quorum
commits) are the histories the wire messages induce. -/
structure PState (A V : Type) where
  maxBal : A → Option Ballot
  onb : A → Ballot → Prop
  log : A → Nat → Option (Ballot × V)
  voted : A → Nat → Ballot → V → Prop
  proposal : Ballot → Nat → V → Prop
  decided : Ballot → Nat → V → Prop

/-- Initial state: nothing seen, empty logs, no history. -/
def initState (A V : Type) : PState A V where
  maxBal := fun _ => none
  onb := fun _ _ => False
  log := fun _ _ => none
  voted := fun _ _ _ _ => False
  proposal := fun _ _ _ => False
  decided := fun _ _ _ => False

/-- The acceptor guard of the spec: a message ballot is acceptable when
it is not strictly below the recorded maximum (vacuous when nothing has
been seen). -/
def maxBalOk (ob : Option Ballot) (b : Ballot) : Prop :=
  match ob with
  | none => True
  | some mb => ¬ ballotLt b mb

instance (ob : Option Ballot) (b : Ballot) : Decidable (maxBalOk ob b) :=
  match ob with
  | none => isTrue trivial
  | some mb => inferInstanceAs (Decidable (¬ ballotLt b mb))

/-- A quorum is any set of at least f+1 acceptors (out of the 2f+1 the
composition provides). -/
def isQuorum {A : Type} (f : Nat) (Q : Finset A) : Prop :=
  f + 1 ≤ Q.card

instance {A : Type} (f : Nat) (Q : Finset A) : Decidable (isQuorum f Q) := by
  unfold isQuorum; infer_instance

/-- Phase 1 value selection, from the spec: either no acceptor of the
promise quorum reports any accepted value under a ballot at most the new
ballot at this slot (the leader is free to propose a fresh value), or the
proposed value is the one accepted under the greatest such reported
ballot (hole recovery re-proposes the highest-ballot value observed). -/
def selectValue {A V : Type} (st : PState A V) (Q : Finset A) (b : Ballot)
    (s : Nat) (v : V) : Prop :=
  (∀ a ∈ Q, ∀ b2 v2, st.voted a s b2 v2 → ¬ ballotLE b2 b) ∨
  (∃ a ∈ Q, ∃ b2, ballotLE b2 b ∧ st.voted a s b2 v ∧
    ∀ a2 ∈ Q, ∀ b3 v3, st.voted a2 s b3 v3 → ballotLE b3 b → ballotLE b3 b2)

/-- Effect of an acceptor answering prepare(b) with a promise: the
maximum rises to b and the promise is recorded. -/
def promiseUpd {A V : Type} [DecidableEq A] (st : PState A V) (a : A) (b : Ballot) :
    PState A V where
  maxBal := fun x => if x = a then some b else st.maxBal x
  onb := fun x bb => st.onb x bb ∨ (x = a ∧ bb = b)
  log := st.log
  voted := st.voted
  proposal := st.proposal
  decided := st.decided

/-- Effect of a leader proposing value v for slot s at ballot b. -/
def proposeUpd {A V : Type} (st : PState A V) (b : Ballot) (s : Nat) (v : V) :
    PState A V where
  maxBal := st.maxBal
  onb := st.onb
  log := st.log
  voted := st.voted
  proposal := fun b2 s2 v2 => st.proposal b2 s2 v2 ∨ (b2 = b ∧ s2 = s ∧ v2 = v)
  decided := st.decided

/-- Effect of an acceptor accepting (b, s, v): the maximum rises to b,
the log entry at s is overwritten (last accepted ballot wins) and the
vote is recorded. -/
def voteUpd {A V : Type} [DecidableEq A] (st : PState A V) (a : A) (b : Ballot)
    (s : Nat) (v : V) : PState A V where
  maxBal := fun x => if x = a then some b else st.maxBal x
  onb := st.onb
  log := fun x s2 => if x = a ∧ s2 = s then some (b, v) else st.log x s2
  voted := fun x s2 b2 v2 => st.voted x s2 b2 v2 ∨ (x = a ∧ s2 = s ∧ b2 = b ∧ v2 = v)
  proposal := st.proposal
  decided := st.decided

/-- Effect of observing a quorum of acks for (b, s, v): the slot commits. -/
def decideUpd {A V : Type} (st : PState A V) (b : Ballot) (s : Nat) (v : V) :
    PState A V where
  maxBal := st.maxBal
  onb := st.onb
  log := st.log
  voted := st.voted
  proposal := st.proposal
  decided := fun b2 s2 v2 => st.decided b2 s2 v2 ∨ (b2 = b ∧ s2 = s ∧ v2 = v)

/-- One protocol step, from the spec: an acceptor promises a ballot not
below its maximum; a leader that holds a quorum of promises for a fresh
(ballot, slot) proposes a value respecting Phase 1 value selection; an
acceptor accepts a proposed value whose ballot is not below its maximum;
a slot commits on a quorum of matching votes. -/
inductive Step {A V : Type} [DecidableEq A] (f : Nat) : PState A V → PState A V → Prop where
  | promise (st : PState A V) (a : A) (b : Ballot)
      (hb : maxBalOk (st.maxBal a) b) :
      Step f st (promiseUpd st a b)
  | propose (st : PState A V) (b : Ballot) (s : Nat) (v : V) (Q : Finset A)
      (hq : isQuorum f Q) (hprom : ∀ a ∈ Q, st.onb a b)
      (hfresh : ∀ w, ¬ st.proposal b s w)
      (hsel : selectValue st Q b s v) :
      Step f st (proposeUpd st b s v)
  | vote (st : PState A V) (a : A) (b : Ballot) (s : Nat) (v : V)
      (hb : maxBalOk (st.maxBal a) b) (hp : st.proposal b s v) :
      Step f st (voteUpd st a b s v)
  | decideSlot (st : PState A V) (b : Ballot) (s : Nat) (v : V) (Q : Finset A)
      (hq : isQuorum f Q) (hv : ∀ a ∈ Q, st.voted a s b v) :
      Step f st (decideUpd st b s v)

/-- Finitely many protocol steps. -/
def Steps {A V : Type} [DecidableEq A] (f : Nat) : PState A V → PState A V → Prop :=
  Relation.ReflTransGen (Step f)

/-- A state the protocol can reach from the initial state. -/
def Reachable {A V : Type} [DecidableEq A] (f : Nat) (st : PState A V) : Prop :=
  Steps f (initState A V) st

/-- A value is still choosable at a ballot when some quorum exists whose
members have each either voted it there or can still do so (their
maximum does not yet exclude the ballot). -/
def Choosable {A V : Type} (f : Nat) (st : PState A V) (b : Ballot) (s : Nat)
    (v : V) : Prop :=
  ∃ Q : Finset A, isQuorum f Q ∧ ∀ a ∈ Q, st.voted a s b v ∨ maxBalOk (st.maxBal a) b

/-- A proposal is safe when no different value is still choosable at any
strictly smaller ballot for its slot. -/
def SafeAt {A V : Type} (f : Nat) (st : PState A V) (b2 : Ballot) (s : Nat)
    (v2 : V) : Prop :=
  ∀ b1 v1, ballotLt b1 b2 → v1 ≠ v2 → ¬ Choosable f st b1 s v1

/-- The inductive invariant: votes follow proposals, one value per
(ballot, slot), commits come from quorums of votes, the recorded maximum
dominates every promise, and every proposal is safe. -/
structure Inv {A V : Type} (f : Nat) (st : PState A V) : Prop where
  vote_prop : ∀ a s b v, st.voted a s b v → st.proposal b s v
  prop_unique : ∀ b s v1 v2, st.proposal b s v1 → st.proposal b s v2 → v1 = v2
  dec_quorum : ∀ b s v, st.decided b s v →
    ∃ Q, isQuorum f Q ∧ ∀ a ∈ Q, st.voted a s b v
  onb_maxBal : ∀ a b, st.onb a b → ∃ mb, st.maxBal a = some mb ∧ ballotLE b mb
  safe : ∀ b s v, st.proposal b s v → SafeAt f st b s v

end HydroPaxos

namespace HydroPaxos

theorem natCmp_eq_lt_iff (a b : Nat) : natCmp a b = Ordering.lt ↔ a < b := by
  unfold natCmp
  rcases Nat.lt_trichotomy a b with h | h | h <;> simp [h]

theorem natCmp_eq_eq_iff (a b : Nat) : natCmp a b = Ordering.eq ↔ a = b := by
  unfold natCmp
  rcases Nat.lt_trichotomy a b with h | h | h <;> simp [h] <;> omega

theorem natCmp_eq_gt_iff (a b : Nat) : natCmp a b = Ordering.gt ↔ b < a := by
  unfold natCmp
  rcases Nat.lt_trichotomy a b with h | h | h <;> simp [h] <;> omega

theorem memberId_eq_iff {R : Type} (m1 m2 : MemberId R) :
    m1 = m2 ↔ m1.raw_id = m2.raw_id := by
  constructor
  · intro h; rw [h]
  · intro h
    cases m1 with
    | mk r1 =>
      cases m2 with
      | mk r2 => exact congrArg MemberId.mk h

theorem ordering_lt_then (o : Ordering) : Ordering.lt.then o = Ordering.lt := rfl

theorem ordering_gt_then (o : Ordering) : Ordering.gt.then o = Ordering.gt := rfl

theorem ordering_eq_then (o : Ordering) : Ordering.eq.then o = o := rfl

theorem ballot_cmp_lt_iff (b1 b2 : Ballot) :
    Ballot.cmp b1 b2 = Ordering.lt ↔
      b1.num < b2.num ∨
        (b1.num = b2.num ∧ b1.proposer_id.raw_id < b2.proposer_id.raw_id) := by
  unfold Ballot.cmp
  rcases Nat.lt_trichotomy b1.num b2.num with h | h | h
  · rw [(natCmp_eq_lt_iff _ _).mpr h, ordering_lt_then]
    exact iff_of_true rfl (Or.inl h)
  · rw [(natCmp_eq_eq_iff _ _).mpr h, ordering_eq_then, natCmp_eq_lt_iff]
    omega
  · rw [(natCmp_eq_gt_iff _ _).mpr h, ordering_gt_then]
    refine iff_of_false (by simp) (by omega)

theorem ballot_cmp_eq_iff (b1 b2 : Ballot) :
    Ballot.cmp b1 b2 = Ordering.eq ↔
      b1.num = b2.num ∧ b1.proposer_id.raw_id = b2.proposer_id.raw_id := by
  unfold Ballot.cmp
  rcases Nat.lt_trichotomy b1.num b2.num with h | h | h
  · rw [(natCmp_eq_lt_iff _ _).mpr h, ordering_lt_then]
    refine iff_of_false (by simp) (by omega)
  · rw [(natCmp_eq_eq_iff _ _).mpr h, ordering_eq_then, natCmp_eq_eq_iff]
    omega
  · rw [(natCmp_eq_gt_iff _ _).mpr h, ordering_gt_then]
    refine iff_of_false (by simp) (by omega)

theorem ballot_cmp_gt_iff (b1 b2 : Ballot) :
    Ballot.cmp b1 b2 = Ordering.gt ↔
      b2.num < b1.num ∨
        (b1.num = b2.num ∧ b2.proposer_id.raw_id < b1.proposer_id.raw_id) := by
  unfold Ballot.cmp
  rcases Nat.lt_trichotomy b1.num b2.num with h | h | h
  · rw [(natCmp_eq_lt_iff _ _).mpr h, ordering_lt_then]
    refine iff_of_false (by simp) (by omega)
  · rw [(natCmp_eq_eq_iff _ _).mpr h, ordering_eq_then, natCmp_eq_gt_iff]
    omega
  · rw [(natCmp_eq_gt_iff _ _).mpr h, ordering_gt_then]
    exact iff_of_true rfl (Or.inl h)

theorem ballot_eq_iff (b1 b2 : Ballot) :
    b1 = b2 ↔ b1.num = b2.num ∧ b1.proposer_id.raw_id = b2.proposer_id.raw_id := by
  constructor
  · intro h; subst h; exact ⟨rfl, rfl⟩
  · rintro ⟨h1, h2⟩
    cases b1 with
    | mk n1 p1 =>
      cases b2 with
      | mk n2 p2 =>
        cases p1; cases p2
        simp only at h1 h2
        subst h1; subst h2; rfl

theorem ballotLt_iff (b1 b2 : Ballot) :
    ballotLt b1 b2 ↔
      b1.num < b2.num ∨
        (b1.num = b2.num ∧ b1.proposer_id.raw_id < b2.proposer_id.raw_id) :=
  ballot_cmp_lt_iff b1 b2

theorem ballotLt_irrefl (b : Ballot) : ¬ ballotLt b b := by
  rw [ballotLt_iff]; omega

theorem ballotLt_trans {b1 b2 b3 : Ballot}
    (h1 : ballotLt b1 b2) (h2 : ballotLt b2 b3) : ballotLt b1 b3 := by
  rw [ballotLt_iff] at h1 h2 ⊢; omega

theorem ballotLt_asymm {b1 b2 : Ballot}
    (h : ballotLt b1 b2) : ¬ ballotLt b2 b1 := by
  rw [ballotLt_iff] at h ⊢; omega

theorem ballot_trichotomy (b1 b2 : Ballot) :
    ballotLt b1 b2 ∨ b1 = b2 ∨ ballotLt b2 b1 := by
  rw [ballotLt_iff, ballotLt_iff, ballot_eq_iff]; omega

theorem ballotLE_refl (b : Ballot) : ballotLE b b := Or.inr rfl

theorem ballotLE_of_not_lt {b1 b2 : Ballot}
    (h : ¬ ballotLt b2 b1) : ballotLE b1 b2 := by
  rcases ballot_trichotomy b1 b2 with h1 | h1 | h1
  · exact Or.inl h1
  · exact Or.inr h1
  · exact absurd h1 h

theorem not_lt_of_ballotLE {b1 b2 : Ballot}
    (h : ballotLE b1 b2) : ¬ ballotLt b2 b1 := by
  rcases h with h | h
  · exact ballotLt_asymm h
  · subst h; exact ballotLt_irrefl b1

theorem ballotLE_trans {b1 b2 b3 : Ballot}
    (h1 : ballotLE b1 b2) (h2 : ballotLE b2 b3) : ballotLE b1 b3 := by
  rcases h1 with h1 | h1
  · rcases h2 with h2 | h2
    · exact Or.inl (ballotLt_trans h1 h2)
    · subst h2; exact Or.inl h1
  · subst h1; exact h2

theorem ballotLt_of_lt_of_le {b1 b2 b3 : Ballot}
    (h1 : ballotLt b1 b2) (h2 : ballotLE b2 b3) : ballotLt b1 b3 := by
  rcases h2 with h2 | h2
  · exact ballotLt_trans h1 h2
  · subst h2; exact h1

theorem ballotLt_of_le_of_lt {b1 b2 b3 : Ballot}
    (h1 : ballotLE b1 b2) (h2 : ballotLt b2 b3) : ballotLt b1 b3 := by
  rcases h1 with h1 | h1
  · exact ballotLt_trans h1 h2
  · subst h1; exact h2

/-- C2. Ballot comparison compares the round number first and uses the
proposer identity only as a tiebreak: a strictly smaller round forces a
strictly smaller ballot whatever the proposer ids are, and the comparison
returns `Ordering.eq` exactly when both the round and the proposer
identity agree. -/
theorem ballot_cmp_round_first (b1 b2 : Ballot) :
    (b1.num < b2.num → Ballot.cmp b1 b2 = Ordering.lt) ∧
    (Ballot.cmp b1 b2 = Ordering.eq ↔
       b1.num = b2.num ∧ b1.proposer_id = b2.proposer_id) := by
  constructor
  · intro h
    rw [ballot_cmp_lt_iff]
    exact Or.inl h
  · rw [ballot_cmp_eq_iff]
    constructor
    · rintro ⟨h1, h2⟩
      exact ⟨h1, (memberId_eq_iff _ _).mpr h2⟩
    · rintro ⟨h1, h2⟩
      exact ⟨h1, by rw [h2]⟩

/-- Closed instance of `ballot_cmp_round_first` at concrete ballots. -/
theorem ballot_cmp_round_first_witness :
    Ballot.cmp ⟨1, ⟨5⟩⟩ ⟨2, ⟨0⟩⟩ = Ordering.lt ∧
      Ballot.cmp ⟨3, ⟨7⟩⟩ ⟨3, ⟨7⟩⟩ = Ordering.eq := by
  refine ⟨(ballot_cmp_round_first ⟨1, ⟨5⟩⟩ ⟨2, ⟨0⟩⟩).1 (by decide), ?_⟩
  exact (ballot_cmp_round_first ⟨3, ⟨7⟩⟩ ⟨3, ⟨7⟩⟩).2.mpr ⟨rfl, rfl⟩

/-- C3. Ballot comparison is a strict total order: two distinct ballots
compare strictly in exactly one direction, and the optional comparison of
the PartialOrd implementation always returns exactly the total comparison. -/
theorem ballot_order_trichotomy (b1 b2 : Ballot) :
    Ballot.pcmp b1 b2 = some (Ballot.cmp b1 b2) ∧
    (b1 ≠ b2 →
      (ballotLt b1 b2 ∧ ¬ ballotLt b2 b1) ∨
      (ballotLt b2 b1 ∧ ¬ ballotLt b1 b2)) := by
  refine ⟨rfl, ?_⟩
  intro hne
  rcases ballot_trichotomy b1 b2 with h | h | h
  · exact Or.inl ⟨h, ballotLt_asymm h⟩
  · exact absurd h hne
  · exact Or.inr ⟨h, ballotLt_asymm h⟩

/-- Closed instance of `ballot_order_trichotomy` at concrete ballots. -/
theorem ballot_order_trichotomy_witness :
    Ballot.pcmp ⟨1, ⟨0⟩⟩ ⟨1, ⟨1⟩⟩ = some (Ballot.cmp ⟨1, ⟨0⟩⟩ ⟨1, ⟨1⟩⟩) ∧
    ((ballotLt ⟨1, ⟨0⟩⟩ ⟨1, ⟨1⟩⟩ ∧ ¬ ballotLt ⟨1, ⟨1⟩⟩ ⟨1, ⟨0⟩⟩) ∨
     (ballotLt ⟨1, ⟨1⟩⟩ ⟨1, ⟨0⟩⟩ ∧ ¬ ballotLt ⟨1, ⟨0⟩⟩ ⟨1, ⟨1⟩⟩)) :=
  ⟨(ballot_order_trichotomy ⟨1, ⟨0⟩⟩ ⟨1, ⟨1⟩⟩).1,
   (ballot_order_trichotomy ⟨1, ⟨0⟩⟩ ⟨1, ⟨1⟩⟩).2 (by decide)⟩

/-- C8. With equal round numbers the comparison is exactly the numeric
comparison of the raw member ids (the phantom role tag plays no part),
so the ballot whose proposer has the larger raw id is the greater ballot. -/
theorem ballot_tiebreak_raw_id (b1 b2 : Ballot) (h : b1.num = b2.num) :
    Ballot.cmp b1 b2 = natCmp b1.proposer_id.raw_id b2.proposer_id.raw_id ∧
    (b1.proposer_id.raw_id < b2.proposer_id.raw_id → ballotLt b1 b2) := by
  constructor
  · unfold Ballot.cmp
    rw [show natCmp b1.num b2.num = Ordering.eq from (natCmp_eq_eq_iff _ _).mpr h]
    rfl
  · intro hr
    rw [ballotLt_iff]
    exact Or.inr ⟨h, hr⟩

/-- Closed instance of `ballot_tiebreak_raw_id` at concrete ballots. -/
theorem ballot_tiebreak_raw_id_witness :
    Ballot.cmp ⟨4, ⟨2⟩⟩ ⟨4, ⟨9⟩⟩ = natCmp 2 9 ∧ ballotLt ⟨4, ⟨2⟩⟩ ⟨4, ⟨9⟩⟩ :=
  ⟨(ballot_tiebreak_raw_id ⟨4, ⟨2⟩⟩ ⟨4, ⟨9⟩⟩ rfl).1,
   (ballot_tiebreak_raw_id ⟨4, ⟨2⟩⟩ ⟨4, ⟨9⟩⟩ rfl).2 (by decide)⟩

/-- C9. The derived equality, the total comparison and the hash model of
Ballot cohere: boolean equality holds exactly when the comparison returns
`Ordering.eq`, and equal ballots hash identically. -/
theorem ballot_eq_hash_cohere (b1 b2 : Ballot) :
    (Ballot.beq b1 b2 = true ↔ Ballot.cmp b1 b2 = Ordering.eq) ∧
    (Ballot.beq b1 b2 = true → Ballot.hashVal b1 = Ballot.hashVal b2) := by
  have hbeq : Ballot.beq b1 b2 = true ↔
      b1.num = b2.num ∧ b1.proposer_id.raw_id = b2.proposer_id.raw_id := by
    unfold Ballot.beq
    simp
  constructor
  · rw [hbeq, ballot_cmp_eq_iff]
  · intro h
    rw [hbeq] at h
    unfold Ballot.hashVal
    omega

/-- Closed instance of `ballot_eq_hash_cohere` at concrete ballots. -/
theorem ballot_eq_hash_cohere_witness :
    (Ballot.beq ⟨6, ⟨3⟩⟩ ⟨6, ⟨3⟩⟩ = true ↔
      Ballot.cmp ⟨6, ⟨3⟩⟩ ⟨6, ⟨3⟩⟩ = Ordering.eq) ∧
    Ballot.hashVal ⟨6, ⟨3⟩⟩ = Ballot.hashVal ⟨6, ⟨3⟩⟩ :=
  ⟨(ballot_eq_hash_cohere ⟨6, ⟨3⟩⟩ ⟨6, ⟨3⟩⟩).1,
   (ballot_eq_hash_cohere ⟨6, ⟨3⟩⟩ ⟨6, ⟨3⟩⟩).2 (by decide)⟩

/-- C10. Ballot rounds are u32: any strictly increasing sequence of
well-formed rounds minted by one proposer has length at most 2^32, a
well-formed ballot at round u32 MAX admits no well-formed strictly larger
round, and the u32 successor of u32 MAX wraps to 0. -/
theorem ballot_round_u32_bound :
    (∀ (n : Nat) (bs : Fin n → Ballot) (pid : MemberId Proposer),
        (∀ i, (bs i).proposer_id = pid) →
        (∀ i, WfBallot (bs i)) →
        (StrictMono fun i => (bs i).num) →
        n ≤ 4294967296) ∧
    (∀ b : Ballot, WfBallot b → b.num = 4294967295 →
        ∀ b2 : Ballot, WfBallot b2 → ¬ b.num < b2.num) ∧
    nextRound 4294967295 = 0 := by
  refine ⟨?_, ?_, rfl⟩
  · intro n bs pid hpid hwf hmono
    have hinj : Function.Injective fun i : Fin n => (⟨(bs i).num, hwf i⟩ : Fin 4294967296) := by
      intro i j hij
      have hnum : (bs i).num = (bs j).num := congrArg Fin.val hij
      exact hmono.injective hnum
    have hcard := Fintype.card_le_of_injective _ hinj
    rw [Fintype.card_fin, Fintype.card_fin] at hcard
    exact hcard
  · intro b hb hmax b2 hb2
    unfold WfBallot at hb hb2
    omega

/-- Closed instance of `ballot_round_u32_bound` with an empty sequence and
the maximal round. -/
theorem ballot_round_u32_bound_witness :
    (0 ≤ 4294967296) ∧
    (¬ (4294967295 : Nat) < 0) ∧
    nextRound 4294967295 = 0 := by
  refine ⟨?_, ?_, ballot_round_u32_bound.2.2⟩
  · exact ballot_round_u32_bound.1 0 Fin.elim0 ⟨0⟩
      (fun i => i.elim0) (fun i => i.elim0)
      (fun i => i.elim0)
  · exact ballot_round_u32_bound.2.1 ⟨4294967295, ⟨0⟩⟩ (by decide) rfl
      ⟨0, ⟨0⟩⟩ (by decide)

/-- C4. Monotonic rejection with no mutation on error: when the acceptor
has recorded a maximal ballot and an incoming prepare or accept message
carries a strictly smaller ballot, the acceptor replies reject with its
recorded maximum and the returned state is exactly the input state. -/
theorem acceptor_reject_no_mutation {P : Type} (st : AcceptorState P)
    (m : AcceptorMsg P) (mb : Ballot)
    (hmax : st.max_ballot_seen = some mb)
    (hlt : ballotLt m.msgBallot mb) :
    handleMsg st m = (AcceptorReply.reject mb, st) := by
  cases m with
  | prepare b =>
    simp only [AcceptorMsg.msgBallot] at hlt
    simp only [handleMsg, hmax]
    exact if_pos hlt
  | accept r =>
    simp only [AcceptorMsg.msgBallot] at hlt
    simp only [handleMsg, hmax]
    exact if_pos hlt

/-- Closed instance of `acceptor_reject_no_mutation`: a prepare and an
accept below the recorded maximum are both rejected without mutation. -/
theorem acceptor_reject_no_mutation_witness :
    handleMsg (P := Nat) ⟨some ⟨2, ⟨0⟩⟩, []⟩ (AcceptorMsg.prepare ⟨1, ⟨1⟩⟩) =
      (AcceptorReply.reject ⟨2, ⟨0⟩⟩, ⟨some ⟨2, ⟨0⟩⟩, []⟩) ∧
    handleMsg (P := Nat) ⟨some ⟨2, ⟨0⟩⟩, []⟩
        (AcceptorMsg.accept ⟨⟨7⟩, ⟨1, ⟨1⟩⟩, 0, some 42⟩) =
      (AcceptorReply.reject ⟨2, ⟨0⟩⟩, ⟨some ⟨2, ⟨0⟩⟩, []⟩) :=
  ⟨acceptor_reject_no_mutation ⟨some ⟨2, ⟨0⟩⟩, []⟩ (AcceptorMsg.prepare ⟨1, ⟨1⟩⟩)
      ⟨2, ⟨0⟩⟩ rfl (by decide),
   acceptor_reject_no_mutation ⟨some ⟨2, ⟨0⟩⟩, []⟩
      (AcceptorMsg.accept ⟨⟨7⟩, ⟨1, ⟨1⟩⟩, 0, some 42⟩) ⟨2, ⟨0⟩⟩ rfl (by decide)⟩

/-- C5. Constructing a CorePaxos with fewer acceptors than 2f+1 fails at
construction time with a membership-inconsistency fault, and construction
succeeds exactly when the acceptor cluster has at least 2f+1 members. -/
theorem corePaxos_cluster_size_check (np na : Nat) (cfg : PaxosConfig) :
    ((∃ c, mkCorePaxos np na cfg = Except.ok c) ↔ 2 * cfg.f + 1 ≤ na) ∧
    (na < 2 * cfg.f + 1 →
      mkCorePaxos np na cfg =
        Except.error (PaxosConfigError.membershipInconsistency (2 * cfg.f + 1) na)) := by
  unfold mkCorePaxos
  constructor
  · constructor
    · rintro ⟨c, hc⟩
      by_contra h
      rw [if_pos (by omega)] at hc
      cases hc
    · intro h
      rw [if_neg (by omega)]
      exact ⟨_, rfl⟩
  · intro h
    rw [if_pos h]

/-- Closed instance of `corePaxos_cluster_size_check`: with f = 1, three
acceptors construct successfully and two acceptors fail. -/
theorem corePaxos_cluster_size_check_witness :
    (∃ c, mkCorePaxos 3 3 ⟨1, 10, 10, 1⟩ = Except.ok c) ∧
    mkCorePaxos 3 2 ⟨1, 10, 10, 1⟩ =
      Except.error (PaxosConfigError.membershipInconsistency 3 2) :=
  ⟨(corePaxos_cluster_size_check 3 3 ⟨1, 10, 10, 1⟩).1.mpr (by decide),
   (corePaxos_cluster_size_check 3 2 ⟨1, 10, 10, 1⟩).2 (by decide)⟩

theorem ballot_encode_roundtrip (b : Ballot) (rest : List Nat) :
    Ballot.decode (Ballot.encode b ++ rest) = some (b, rest) := by
  cases b with
  | mk n p =>
    cases p with
    | mk r => rfl

theorem option_encode_roundtrip {P : Type} (c : Codec P) (hc : RoundTrips c)
    (o : Option P) (rest : List Nat) :
    decodeOption c (encodeOption c o ++ rest) = some (o, rest) := by
  cases o with
  | none => rfl
  | some p =>
    show decodeOption c (1 :: (c.enc p ++ rest)) = some (some p, rest)
    show Option.map (fun pr => (some pr.1, pr.2)) (c.dec (c.enc p ++ rest)) =
      some (some p, rest)
    rw [hc p rest]
    rfl

/-- C6. Wire-message reproducibility as a serialization round-trip: for a
payload codec that round-trips, decoding the encoding of any Ballot, any
P2a accept request and any LogValue log entry yields the original message
and the untouched remainder of the stream. -/
theorem wire_message_roundtrip {P S : Type} (c : Codec P) (hc : RoundTrips c) :
    (∀ (b : Ballot) (rest : List Nat),
        Ballot.decode (Ballot.encode b ++ rest) = some (b, rest)) ∧
    (∀ (m : P2a P S) (rest : List Nat),
        P2a.decode c (P2a.encode c m ++ rest) = some (m, rest)) ∧
    (∀ (lv : LogValue P) (rest : List Nat),
        LogValue.decode c (LogValue.encode c lv ++ rest) = some (lv, rest)) := by
  refine ⟨ballot_encode_roundtrip, ?_, ?_⟩
  · intro m rest
    cases m with
    | mk sender b slot v =>
      cases sender with
      | mk sid =>
        simp only [P2a.encode, P2a.decode, encodeMemberId, decodeMemberId,
          List.cons_append, List.nil_append, List.append_assoc,
          ballot_encode_roundtrip, option_encode_roundtrip c hc]
  · intro lv rest
    cases lv with
    | mk b v =>
      simp only [LogValue.encode, LogValue.decode, List.append_assoc,
        ballot_encode_roundtrip, option_encode_roundtrip c hc]

/-- Closed instance of `wire_message_roundtrip` with the Nat codec and
concrete messages. -/
theorem wire_message_roundtrip_witness :
    Ballot.decode (Ballot.encode ⟨5, ⟨2⟩⟩ ++ []) = some (⟨5, ⟨2⟩⟩, []) ∧
    P2a.decode (S := Proposer) natCodec
        (P2a.encode natCodec (⟨⟨3⟩, ⟨5, ⟨2⟩⟩, 7, some 9⟩ : P2a Nat Proposer) ++ []) =
      some ((⟨⟨3⟩, ⟨5, ⟨2⟩⟩, 7, some 9⟩ : P2a Nat Proposer), []) ∧
    LogValue.decode natCodec
        (LogValue.encode natCodec (⟨⟨5, ⟨2⟩⟩, none⟩ : LogValue Nat) ++ []) =
      some ((⟨⟨5, ⟨2⟩⟩, none⟩ : LogValue Nat), []) := by
  have hrt : RoundTrips natCodec := by
    intro p rest
    rfl
  have h := wire_message_roundtrip (S := Proposer) natCodec hrt
  exact ⟨h.1 ⟨5, ⟨2⟩⟩ [], h.2.1 ⟨⟨3⟩, ⟨5, ⟨2⟩⟩, 7, some 9⟩ [], h.2.2 ⟨⟨5, ⟨2⟩⟩, none⟩ []⟩

/-- C7. The payload bound is a blanket capability: a type admits
PaxosPayload exactly when it admits the five capability records
(serializable, deserializable, equality-comparable, clonable,
debuggable), so the bound imposes nothing beyond those capabilities and
is never implemented per payload type. -/
theorem paxosPayload_blanket (P : Type) :
    Nonempty (PaxosPayload P) ↔
      (Nonempty (Serializable P) ∧ Nonempty (Deserializable P) ∧
        Nonempty (EqComparable P) ∧ Nonempty (Clonable P) ∧
        Nonempty (Debuggable P)) := by
  constructor
  · rintro ⟨pp⟩
    exact ⟨⟨pp.toSer⟩, ⟨pp.toDeser⟩, ⟨pp.toEq⟩, ⟨pp.toClone⟩, ⟨pp.toDebug⟩⟩
  · rintro ⟨⟨s⟩, ⟨d⟩, ⟨e⟩, ⟨cl⟩, ⟨db⟩⟩
    exact ⟨⟨s, d, e, cl, db⟩⟩

/-- Closed instance of `paxosPayload_blanket`: Nat carries the five
capabilities, hence the blanket bound. -/
theorem paxosPayload_blanket_witness : Nonempty (PaxosPayload Nat) :=
  (paxosPayload_blanket Nat).mpr
    ⟨⟨⟨natCodec.enc⟩⟩, ⟨⟨natCodec.dec⟩⟩, ⟨⟨fun a b => a == b⟩⟩,
      ⟨⟨fun a => a⟩⟩, ⟨⟨fun a => toString a⟩⟩⟩

theorem le_of_maxBalOk_some {mb b : Ballot} (h : maxBalOk (some mb) b) :
    ballotLE mb b :=
  ballotLE_of_not_lt h

theorem maxBalOk_some_of_le {mb b : Ballot} (h : ballotLE mb b) :
    maxBalOk (some mb) b :=
  not_lt_of_ballotLE h

theorem promiseUpd_maxBal {A V : Type} [DecidableEq A] (st : PState A V)
    (a : A) (b : Ballot) (x : A) :
    (promiseUpd st a b).maxBal x = if x = a then some b else st.maxBal x := rfl

theorem promiseUpd_onb {A V : Type} [DecidableEq A] (st : PState A V)
    (a : A) (b : Ballot) (x : A) (bb : Ballot) :
    (promiseUpd st a b).onb x bb ↔ st.onb x bb ∨ (x = a ∧ bb = b) := Iff.rfl

theorem voteUpd_maxBal {A V : Type} [DecidableEq A] (st : PState A V)
    (a : A) (b : Ballot) (s : Nat) (v : V) (x : A) :
    (voteUpd st a b s v).maxBal x = if x = a then some b else st.maxBal x := rfl

theorem voteUpd_voted {A V : Type} [DecidableEq A] (st : PState A V)
    (a : A) (b : Ballot) (s : Nat) (v : V) (x : A) (s2 : Nat) (b2 : Ballot) (v2 : V) :
    (voteUpd st a b s v).voted x s2 b2 v2 ↔
      st.voted x s2 b2 v2 ∨ (x = a ∧ s2 = s ∧ b2 = b ∧ v2 = v) := Iff.rfl

theorem proposeUpd_proposal {A V : Type} (st : PState A V)
    (b : Ballot) (s : Nat) (v : V) (b2 : Ballot) (s2 : Nat) (v2 : V) :
    (proposeUpd st b s v).proposal b2 s2 v2 ↔
      st.proposal b2 s2 v2 ∨ (b2 = b ∧ s2 = s ∧ v2 = v) := Iff.rfl

theorem decideUpd_decided {A V : Type} (st : PState A V)
    (b : Ballot) (s : Nat) (v : V) (b2 : Ballot) (s2 : Nat) (v2 : V) :
    (decideUpd st b s v).decided b2 s2 v2 ↔
      st.decided b2 s2 v2 ∨ (b2 = b ∧ s2 = s ∧ v2 = v) := Iff.rfl

theorem quorum_nonempty {A : Type} {f : Nat} {Q : Finset A}
    (hq : isQuorum f Q) : ∃ a, a ∈ Q := by
  unfold isQuorum at hq
  have hpos : 0 < Q.card := by omega
  obtain ⟨a, ha⟩ := Finset.card_pos.mp hpos
  exact ⟨a, ha⟩

theorem quorum_inter {A : Type} [Fintype A] [DecidableEq A] {f : Nat}
    (hcard : Fintype.card A = 2 * f + 1)
    {Q1 Q2 : Finset A} (h1 : isQuorum f Q1) (h2 : isQuorum f Q2) :
    ∃ a, a ∈ Q1 ∧ a ∈ Q2 := by
  unfold isQuorum at h1 h2
  by_contra hno
  push_neg at hno
  have hint : Q1 ∩ Q2 = ∅ := by
    refine Finset.eq_empty_iff_forall_not_mem.mpr ?_
    intro a ha
    exact hno a (Finset.mem_inter.mp ha).1 (Finset.mem_inter.mp ha).2
  have hcup : (Q1 ∪ Q2).card ≤ Fintype.card A := by
    rw [← Finset.card_univ]
    exact Finset.card_le_card (Finset.subset_univ _)
  have hsum := Finset.card_union_add_card_inter Q1 Q2
  rw [hint, Finset.card_empty] at hsum
  omega

theorem inv_init {A V : Type} (f : Nat) : Inv f (initState A V) := by
  refine ⟨?_, ?_, ?_, ?_, ?_⟩
  · intro a s b v h; exact h.elim
  · intro b s v1 v2 h _; exact h.elim
  · intro b s v h; exact h.elim
  · intro a b h; exact h.elim
  · intro b s v h; exact h.elim

theorem inv_step {A V : Type} [Fintype A] [DecidableEq A] {f : Nat}
    (hcard : Fintype.card A = 2 * f + 1)
    {st st2 : PState A V} (hinv : Inv f st) (hstep : Step f st st2) :
    Inv f st2 := by
  cases hstep with
  | promise a b hb =>
    refine ⟨hinv.vote_prop, hinv.prop_unique, hinv.dec_quorum, ?_, ?_⟩
    · intro x bb hob
      rcases hob with hob | ⟨hxa, hbb⟩
      · obtain ⟨mb, hmb, hle⟩ := hinv.onb_maxBal x bb hob
        by_cases hxa : x = a
        · subst hxa
          refine ⟨b, ?_, ?_⟩
          · rw [promiseUpd_maxBal, if_pos rfl]
          · rw [hmb] at hb
            exact ballotLE_trans hle (le_of_maxBalOk_some hb)
        · refine ⟨mb, ?_, hle⟩
          rw [promiseUpd_maxBal, if_neg hxa]
          exact hmb
      · subst hxa; subst hbb
        refine ⟨bb, ?_, ballotLE_refl bb⟩
        rw [promiseUpd_maxBal, if_pos rfl]
    · intro b2 s v2 hp b1 v1 hlt hne hch
      refine hinv.safe b2 s v2 hp b1 v1 hlt hne ?_
      obtain ⟨Q, hq, hQ⟩ := hch
      refine ⟨Q, hq, ?_⟩
      intro x hx
      rcases hQ x hx with h | h
      · exact Or.inl h
      · right
        rw [promiseUpd_maxBal] at h
        by_cases hxa : x = a
        · rw [if_pos hxa] at h
          have hbb1 : ballotLE b b1 := le_of_maxBalOk_some h
          subst hxa
          cases hmb : st.maxBal x with
          | none => exact trivial
          | some mb =>
            rw [hmb] at hb
            exact maxBalOk_some_of_le
              (ballotLE_trans (le_of_maxBalOk_some hb) hbb1)
        · rw [if_neg hxa] at h
          exact h
  | propose b s v Q hq hprom hfresh hsel =>
    refine ⟨?_, ?_, hinv.dec_quorum, hinv.onb_maxBal, ?_⟩
    · intro x s2 b2 v2 hvv
      exact Or.inl (hinv.vote_prop x s2 b2 v2 hvv)
    · intro b2 s2 w1 w2 h1 h2
      rcases h1 with h1 | ⟨rfl, rfl, rfl⟩
      · rcases h2 with h2 | ⟨rfl, rfl, rfl⟩
        · exact hinv.prop_unique _ _ _ _ h1 h2
        · exact absurd h1 (hfresh w1)
      · rcases h2 with h2 | ⟨-, -, rfl⟩
        · exact absurd h2 (hfresh w2)
        · rfl
    · intro b2 s2 v2 hpp
      rcases hpp with hpp | ⟨rfl, rfl, rfl⟩
      · intro b1 v1 hlt hne hch
        exact hinv.safe b2 s2 v2 hpp b1 v1 hlt hne hch
      · intro b1 v1 hlt hne hch
        obtain ⟨Q1, hq1, hQ1⟩ := hch
        obtain ⟨a0, ha0Q, ha0Q1⟩ := quorum_inter hcard hq hq1
        obtain ⟨mb, hmb, hble⟩ := hinv.onb_maxBal a0 b2 (hprom a0 ha0Q)
        rcases hQ1 a0 ha0Q1 with hv1 | hok
        · rcases hsel with hnone | ⟨aM, haM, bM, hbMle, hvM, hmax⟩
          · exact (hnone a0 ha0Q b1 v1 hv1) (Or.inl hlt)
          · have hb1M : ballotLE b1 bM := hmax a0 ha0Q b1 v1 hv1 (Or.inl hlt)
            have hbMb : ballotLt bM b2 := by
              rcases hbMle with h | h
              · exact h
              · subst h
                exact absurd (hinv.vote_prop aM s2 bM v2 hvM) (hfresh v2)
            rcases hb1M with hb1M | hb1M
            · exact hinv.safe bM s2 v2 (hinv.vote_prop aM s2 bM v2 hvM)
                b1 v1 hb1M hne ⟨Q1, hq1, hQ1⟩
            · subst hb1M
              exact hne (hinv.prop_unique b1 s2 v1 v2
                (hinv.vote_prop a0 s2 b1 v1 hv1)
                (hinv.vote_prop aM s2 b1 v2 hvM))
        · have hok2 : maxBalOk (st.maxBal a0) b1 := hok
          rw [hmb] at hok2
          have hmbb1 : ballotLE mb b1 := le_of_maxBalOk_some hok2
          exact absurd
            (ballotLt_of_lt_of_le (ballotLt_of_lt_of_le hlt hble) hmbb1)
            (ballotLt_irrefl b1)
  | vote a b s v hb hp =>
    refine ⟨?_, hinv.prop_unique, ?_, ?_, ?_⟩
    · intro x s2 b2 v2 hvv
      rcases hvv with hvv | ⟨hxa, rfl, rfl, rfl⟩
      · exact hinv.vote_prop x s2 b2 v2 hvv
      · exact hp
    · intro b2 s2 v2 hd
      obtain ⟨Q, hq, hQ⟩ := hinv.dec_quorum b2 s2 v2 hd
      exact ⟨Q, hq, fun x hx => Or.inl (hQ x hx)⟩
    · intro x bb hob
      obtain ⟨mb, hmb, hle⟩ := hinv.onb_maxBal x bb hob
      by_cases hxa : x = a
      · subst hxa
        refine ⟨b, ?_, ?_⟩
        · rw [voteUpd_maxBal, if_pos rfl]
        · rw [hmb] at hb
          exact ballotLE_trans hle (le_of_maxBalOk_some hb)
      · refine ⟨mb, ?_, hle⟩
        rw [voteUpd_maxBal, if_neg hxa]
        exact hmb
    · intro b2 s2 v2 hpp b1 v1 hlt hne hch
      refine hinv.safe b2 s2 v2 hpp b1 v1 hlt hne ?_
      obtain ⟨Q1, hq1, hQ1⟩ := hch
      refine ⟨Q1, hq1, ?_⟩
      intro x hx
      rcases hQ1 x hx with h | h
      · rcases h with h | ⟨hxa, rfl, rfl, rfl⟩
        · exact Or.inl h
        · subst hxa
          exact Or.inr hb
      · right
        rw [voteUpd_maxBal] at h
        by_cases hxa : x = a
        · rw [if_pos hxa] at h
          have hbb1 : ballotLE b b1 := le_of_maxBalOk_some h
          subst hxa
          cases hmb : st.maxBal x with
          | none => exact trivial
          | some mb =>
            rw [hmb] at hb
            exact maxBalOk_some_of_le
              (ballotLE_trans (le_of_maxBalOk_some hb) hbb1)
        · rw [if_neg hxa] at h
          exact h
  | decideSlot b s v Q hq hv =>
    refine ⟨hinv.vote_prop, hinv.prop_unique, ?_, hinv.onb_maxBal, hinv.safe⟩
    intro b2 s2 v2 hd
    rcases hd with hd | ⟨rfl, rfl, rfl⟩
    · exact hinv.dec_quorum _ _ _ hd
    · exact ⟨Q, hq, hv⟩

theorem inv_reachable {A V : Type} [Fintype A] [DecidableEq A] {f : Nat}
    (hcard : Fintype.card A = 2 * f + 1)
    {st : PState A V} (h : Reachable f st) : Inv f st := by
  unfold Reachable Steps at h
  induction h with
  | refl => exact inv_init f
  | tail hsteps hstep ih => exact inv_step hcard ih hstep

theorem decided_mono_step {A V : Type} [DecidableEq A] {f : Nat}
    {st st2 : PState A V} (hstep : Step f st st2)
    {b : Ballot} {s : Nat} {v : V} (hd : st.decided b s v) :
    st2.decided b s v := by
  cases hstep with
  | promise a b2 hb => exact hd
  | propose b2 s2 v2 Q hq hprom hfresh hsel => exact hd
  | vote a b2 s2 v2 hb hp => exact hd
  | decideSlot b2 s2 v2 Q hq hv => exact Or.inl hd

theorem decided_mono_steps {A V : Type} [DecidableEq A] {f : Nat}
    {st st2 : PState A V} (hsteps : Steps f st st2)
    {b : Ballot} {s : Nat} {v : V} (hd : st.decided b s v) :
    st2.decided b s v := by
  unfold Steps at hsteps
  induction hsteps with
  | refl => exact hd
  | tail hs hstep ih => exact decided_mono_step hstep ih

theorem agreement_of_inv {A V : Type} [Fintype A] [DecidableEq A] {f : Nat}
    (hcard : Fintype.card A = 2 * f + 1)
    {st : PState A V} (hinv : Inv f st)
    {b1 b2 : Ballot} {s : Nat} {v1 v2 : V}
    (h1 : st.decided b1 s v1) (h2 : st.decided b2 s v2) : v1 = v2 := by
  obtain ⟨Q1, hq1, hQ1⟩ := hinv.dec_quorum _ _ _ h1
  obtain ⟨Q2, hq2, hQ2⟩ := hinv.dec_quorum _ _ _ h2
  rcases ballot_trichotomy b1 b2 with hlt | heq | hlt
  · by_contra hne
    obtain ⟨a2, ha2⟩ := quorum_nonempty hq2
    have hp2 := hinv.vote_prop a2 s b2 v2 (hQ2 a2 ha2)
    exact hinv.safe b2 s v2 hp2 b1 v1 hlt hne
      ⟨Q1, hq1, fun x hx => Or.inl (hQ1 x hx)⟩
  · subst heq
    obtain ⟨a, haQ1, haQ2⟩ := quorum_inter hcard hq1 hq2
    exact hinv.prop_unique b1 s v1 v2
      (hinv.vote_prop a s b1 v1 (hQ1 a haQ1))
      (hinv.vote_prop a s b1 v2 (hQ2 a haQ2))
  · by_contra hne
    obtain ⟨a1, ha1⟩ := quorum_nonempty hq1
    have hp1 := hinv.vote_prop a1 s b1 v1 (hQ1 a1 ha1)
    exact hinv.safe b1 s v1 hp1 b2 v2 hlt (fun hh => hne hh.symm)
      ⟨Q2, hq2, fun x hx => Or.inl (hQ2 x hx)⟩

/-- C1. Agreement safety: over a cluster of 2f+1 acceptors, in any
reachable protocol state and any later state it can step to, two commits
at the same slot carry the same value, whatever their ballots and
however many leader changes separate them; in particular a committed
slot value never changes under any higher ballot. -/
theorem paxos_agreement_safety {A V : Type} [Fintype A] [DecidableEq A] {f : Nat}
    (hcard : Fintype.card A = 2 * f + 1)
    {st st2 : PState A V} (hre : Reachable f st) (hsteps : Steps f st st2)
    {b1 b2 : Ballot} {s : Nat} {v1 v2 : V}
    (h1 : st.decided b1 s v1) (h2 : st2.decided b2 s v2) : v1 = v2 :=
  agreement_of_inv hcard
    (inv_reachable hcard (Relation.ReflTransGen.trans hre hsteps))
    (decided_mono_steps hsteps h1) h2

/-- Closed instance of `paxos_agreement_safety`: with f = 0 and one
acceptor, a full promise-propose-vote-commit run reaches a state where
slot 0 is decided, and the theorem applies to its two (identical)
commits. -/
theorem paxos_agreement_safety_witness : (42 : Nat) = 42 := by
  have h1 : Step (V := Nat) 0 (initState (Fin 1) Nat)
      (promiseUpd (initState (Fin 1) Nat) 0 ⟨1, ⟨0⟩⟩) :=
    Step.promise _ 0 ⟨1, ⟨0⟩⟩ trivial
  have h2 : Step (V := Nat) 0 (promiseUpd (initState (Fin 1) Nat) 0 ⟨1, ⟨0⟩⟩)
      (proposeUpd (promiseUpd (initState (Fin 1) Nat) 0 ⟨1, ⟨0⟩⟩) ⟨1, ⟨0⟩⟩ 0 42) :=
    Step.propose _ ⟨1, ⟨0⟩⟩ 0 42 {0} (by decide)
      (fun a ha => Or.inr ⟨Finset.mem_singleton.mp ha, rfl⟩)
      (fun w hw => hw)
      (Or.inl (fun a _ b2 v2 hv => hv.elim))
  have h3 : Step (V := Nat) 0
      (proposeUpd (promiseUpd (initState (Fin 1) Nat) 0 ⟨1, ⟨0⟩⟩) ⟨1, ⟨0⟩⟩ 0 42)
      (voteUpd (proposeUpd (promiseUpd (initState (Fin 1) Nat) 0 ⟨1, ⟨0⟩⟩)
        ⟨1, ⟨0⟩⟩ 0 42) 0 ⟨1, ⟨0⟩⟩ 0 42) :=
    Step.vote _ 0 ⟨1, ⟨0⟩⟩ 0 42 (by decide) (Or.inr ⟨rfl, rfl, rfl⟩)
  have h4 : Step (V := Nat) 0
      (voteUpd (proposeUpd (promiseUpd (initState (Fin 1) Nat) 0 ⟨1, ⟨0⟩⟩)
        ⟨1, ⟨0⟩⟩ 0 42) 0 ⟨1, ⟨0⟩⟩ 0 42)
      (decideUpd (voteUpd (proposeUpd (promiseUpd (initState (Fin 1) Nat) 0 ⟨1, ⟨0⟩⟩)
        ⟨1, ⟨0⟩⟩ 0 42) 0 ⟨1, ⟨0⟩⟩ 0 42) ⟨1, ⟨0⟩⟩ 0 42) :=
    Step.decideSlot _ ⟨1, ⟨0⟩⟩ 0 42 {0} (by decide)
      (fun a ha => Or.inr ⟨Finset.mem_singleton.mp ha, rfl, rfl, rfl⟩)
  have hreach : Reachable (V := Nat) 0
      (decideUpd (voteUpd (proposeUpd (promiseUpd (initState (Fin 1) Nat) 0 ⟨1, ⟨0⟩⟩)
        ⟨1, ⟨0⟩⟩ 0 42) 0 ⟨1, ⟨0⟩⟩ 0 42) ⟨1, ⟨0⟩⟩ 0 42) :=
    Relation.ReflTransGen.head h1
      (Relation.ReflTransGen.head h2
        (Relation.ReflTransGen.head h3
          (Relation.ReflTransGen.head h4 Relation.ReflTransGen.refl)))
  have hd : (decideUpd (voteUpd (proposeUpd (promiseUpd (initState (Fin 1) Nat) 0 ⟨1, ⟨0⟩⟩)
      ⟨1, ⟨0⟩⟩ 0 42) 0 ⟨1, ⟨0⟩⟩ 0 42) ⟨1, ⟨0⟩⟩ 0 42).decided ⟨1, ⟨0⟩⟩ 0 42 :=
    Or.inr ⟨rfl, rfl, rfl⟩
  exact paxos_agreement_safety (by decide) hreach Relation.ReflTransGen.refl hd hd

end HydroPaxos
